import Mathlib

/-!
Verification of the JDWP client transport and codec in src/pyjdwp.py.

The transport (send_command, connect), the command table and the
get_classes normalisation are translated directly from the source.
The value codec lives in the external `parser` module, which the source
imports but which is not part of the repository snapshot; it is modelled
from the specification where needed.

Byte streams delivered by the peer are modelled as lists of chunks: one
call to socket.recv(n) returns at most n bytes taken from the head chunk,
and an exhausted chunk list models a connection that has been closed by
the peer (recv then returns an empty byte string).
-/

namespace Pyjdwp

/-- Big-endian base-256 encoding of `n` in exactly `w` bytes (the low
`w` bytes of `n`), matching Python struct's big-endian integer layout. -/
def beBytes : Nat → Nat → List Nat
  | 0, _ => []
  | w + 1, n => beBytes w (n / 256) ++ [n % 256]

/-- Big-endian interpretation of a byte list as a natural number. -/
def beToNat (bs : List Nat) : Nat := bs.foldl (fun a b => a * 256 + b) 0

/-- Four big-endian bytes of `n`. -/
def u32BE (n : Nat) : List Nat := beBytes 4 n

theorem beBytes_length (w n : Nat) : (beBytes w n).length = w := by
  induction w generalizing n with
  | zero => rfl
  | succ w ih => simp [beBytes, ih]

theorem beToNat_append_singleton (bs : List Nat) (b : Nat) :
    beToNat (bs ++ [b]) = beToNat bs * 256 + b := by
  simp [beToNat, List.foldl_append]

theorem beToNat_beBytes (w n : Nat) (h : n < 256 ^ w) :
    beToNat (beBytes w n) = n := by
  induction w generalizing n with
  | zero =>
    simp only [beBytes, beToNat, List.foldl_nil]
    omega
  | succ w ih =>
    have hp : 256 ^ (w + 1) = 256 ^ w * 256 := by ring
    rw [beBytes, beToNat_append_singleton, ih (n / 256) (by omega)]
    omega

theorem u32BE_length (n : Nat) : (u32BE n).length = 4 := beBytes_length 4 n

theorem beToNat_u32BE (n : Nat) (h : n < 2 ^ 32) : beToNat (u32BE n) = n := by
  have : (256 : Nat) ^ 4 = 2 ^ 32 := by norm_num
  exact beToNat_beBytes 4 n (by omega)

/-! ## Command table (src/pyjdwp.py lines 24-41) -/

/-- The dict literal `cmd_map`: command name → (command set, command id). -/
def cmd_map : List (String × Nat × Nat) := [
  ("Version", (1, 1)),
  ("ClassesBySignature", (1, 2)),
  ("AllClasses", (1, 3)),
  ("AllThreads", (1, 4)),
  ("TopLevelThreadGroups", (1, 5)),
  ("Dispose", (1, 6)),
  ("IDSizes", (1, 7)),
  ("Suspend", (1, 8)),
  ("Resume", (1, 9)),
  ("Exit", (1, 10)),
  ("CreateString", (1, 11)),
  ("Capabilities", (1, 12)),
  ("ClassPaths", (1, 13)),
  ("DisposeObjects", (1, 14)),
  ("HoldEvents", (1, 15)),
  ("ReleaseEvents", (1, 16))]

/-! ## struct pack/unpack for the header format ">iiBBB" -/

/-- Python struct.pack ">i" applied to a nonnegative int: four big-endian
bytes, failing (`none`, a struct.error) when the value is outside the
signed 32-bit range. -/
def i32packN (n : Nat) : Option (List Nat) :=
  if n < 2 ^ 31 then some (u32BE n) else none

/-- struct.pack ">iiBBB" as used at line 118 of src/pyjdwp.py: each field
must be in range or struct.pack raises. -/
def packHeader (len id flags cs ci : Nat) : Option (List Nat) :=
  if len < 2 ^ 31 ∧ id < 2 ^ 31 ∧ flags < 256 ∧ cs < 256 ∧ ci < 256 then
    some (u32BE len ++ u32BE id ++ [flags, cs, ci])
  else none

/-- struct.unpack ">i": signed big-endian 32-bit reading of four bytes. -/
def i32un (bs : List Nat) : Int :=
  let n := beToNat bs
  if n < 2 ^ 31 then (n : Int) else (n : Int) - 2 ^ 32

/-- struct.unpack ">iiBBB" as used at line 124 of src/pyjdwp.py: requires a
buffer of exactly 11 bytes, otherwise struct.error is raised (`none`). -/
def unpackHeader (bs : List Nat) : Option (Int × Int × Nat × Nat × Nat) :=
  if bs.length = 11 then
    some (i32un (bs.take 4), i32un ((bs.drop 4).take 4),
      (bs.drop 8).headD 0, (bs.drop 9).headD 0, (bs.drop 10).headD 0)
  else none

/-! ## The socket stream model -/

/-- One call to socket.recv n: at most n bytes are returned, taken from the
head chunk of the delivery schedule; the unconsumed remainder of the chunk
stays at the front. An empty schedule models a closed connection, for
which recv returns the empty byte string. -/
def recvChunk (n : Nat) (s : List (List Nat)) : List Nat × List (List Nat) :=
  match s with
  | [] => ([], [])
  | c :: rest => (c.take n, if c.length ≤ n then rest else c.drop n :: rest)

/-- The body-read loop of send_command (src/pyjdwp.py lines 129-133):
while len(data) < full_length, data += socket.recv(length - hlength).
`need` is the signed full_length; `fuel` bounds the number of loop
iterations, and `none` means the loop has not terminated within that
bound. -/
def readBody : Nat → Int → List Nat → List (List Nat) →
    Option (List Nat × List (List Nat))
  | 0, _, _, _ => none
  | fuel + 1, need, acc, s =>
    if (acc.length : Int) < need then
      let r := recvChunk need.toNat s
      readBody fuel need (acc ++ r.1) r.2
    else
      some (acc, s)

theorem recvChunk_all (n : Nat) (c : List Nat) (rest : List (List Nat))
    (h : c.length ≤ n) : recvChunk n (c :: rest) = (c, rest) := by
  simp [recvChunk, h, List.take_of_length_le h]

/-- When the delivery schedule consists of nonempty chunks whose bytes are
exactly the wanted body, the loop accumulates every chunk and ends with
exactly the body, leaving an exhausted stream. -/
theorem readBody_drain (chunks : List (List Nat)) (acc : List Nat) (fuel : Nat)
    (hne : ∀ c ∈ chunks, c ≠ []) (hfuel : chunks.length < fuel) :
    readBody fuel ((acc.length + chunks.flatten.length : Nat) : Int) acc chunks =
      some (acc ++ chunks.flatten, []) := by
  induction chunks generalizing acc fuel with
  | nil =>
    cases fuel with
    | zero => omega
    | succ fuel => simp [readBody]
  | cons c rest ih =>
    cases fuel with
    | zero => simp at hfuel
    | succ fuel =>
      have hc : c ≠ [] := hne c (by simp)
      have hclen : 0 < c.length := List.length_pos.mpr hc
      have hlen : (c :: rest).flatten.length = c.length + rest.flatten.length := by
        simp [List.flatten_cons]
      have hcond : (acc.length : Int) <
          ((acc.length + (c :: rest).flatten.length : Nat) : Int) := by
        have h0 : 0 < (c :: rest).flatten.length := by omega
        exact_mod_cast Nat.lt_add_of_pos_right h0
      rw [readBody, if_pos hcond, Int.toNat_natCast]
      rw [recvChunk_all _ c rest (by omega)]
      have harith : acc.length + (c :: rest).flatten.length =
          (acc ++ c).length + rest.flatten.length := by
        simp [hlen]; omega
      rw [harith,
        ih (acc ++ c) fuel (fun d hd => hne d (List.mem_cons_of_mem _ hd))
          (by simp at hfuel; omega)]
      simp [List.flatten_cons, List.append_assoc]

/-- On a closed connection the body-read loop makes no progress: recv
returns the empty byte string, the accumulator never grows, and the loop
never terminates (no fuel suffices). -/
theorem readBody_closed (fuel : Nat) (need : Int) (acc : List Nat)
    (h : (acc.length : Int) < need) :
    readBody fuel need acc [] = none := by
  induction fuel with
  | zero => rfl
  | succ fuel ih => rw [readBody, if_pos h]; simpa [recvChunk] using ih

/-! ## send_command (src/pyjdwp.py lines 98-133) -/

/-- Exceptions raised inside send_command: the KeyError of the
`cmd_map[cmd]` lookup at line 112 (the spec's UnknownCommandError) and the
struct.error of struct.pack/struct.unpack on out-of-range values or a
short buffer. -/
inductive JdwpError
  | unknownCommand
  | structError
deriving DecidableEq

/-- Result of one send_command call: a returned body, a raised exception,
or a body-read loop that never terminates. -/
inductive Outcome
  | ok (body : List Nat)
  | err (e : JdwpError)
  | hang
deriving DecidableEq

def Outcome.isOk : Outcome → Bool
  | .ok _ => true
  | _ => false

/-- The session state send_command touches: the local request counter
`command_count` (initialised to 0 in `__init__`, line 73), the incoming
byte stream and the bytes written to the socket so far. -/
structure Session where
  command_count : Nat
  stream : List (List Nat)
  sent : List Nat
deriving DecidableEq

/-- Lines 109-120: resolve the command name (KeyError when absent, before
anything is written), then build the packet: 11-byte ">iiBBB" header with
length 11 + len(data), the current command_count as id, flags 0 and the
resolved command set/id, followed by the optional payload. -/
def buildPacket (cmd : String) (data : Option (List Nat)) (count : Nat) :
    Except JdwpError (List Nat) :=
  match cmd_map.lookup cmd with
  | none => .error .unknownCommand
  | some (cs, ci) =>
    match packHeader (11 + (data.getD []).length) count 0 cs ci with
    | none => .error .structError
    | some hdr => .ok (hdr ++ data.getD [])

/-- send_command (lines 98-133): build and write the packet, read the
response header with a single recv(11) and unpack it (struct.error when
fewer than 11 bytes arrive), increment command_count, then run the
body-read loop for length - 11 bytes. -/
def send_command (cmd : String) (data : Option (List Nat)) (fuel : Nat)
    (st : Session) : Outcome × Session :=
  match buildPacket cmd data st.command_count with
  | .error e => (.err e, st)
  | .ok packet =>
    let st1 : Session := { st with sent := st.sent ++ packet }
    let hr := recvChunk 11 st1.stream
    match unpackHeader hr.1 with
    | none => (.err .structError, { st1 with stream := hr.2 })
    | some (rlen, _rid, _fl, _rcs, _rci) =>
      let st2 : Session :=
        { st1 with stream := hr.2, command_count := st1.command_count + 1 }
      match readBody fuel (rlen - 11) [] st2.stream with
      | none => (.hang, st2)
      | some r => (.ok r.1, { st2 with stream := r.2 })

/-! ## connect (src/pyjdwp.py lines 135-150) -/

/-- The 14 ASCII bytes of b"JDWP-Handshake" (line 137). -/
def magic_token : List Nat :=
  [74, 68, 87, 80, 45, 72, 97, 110, 100, 115, 104, 97, 107, 101]

structure ConnectResult where
  target : String × Nat
  sent : List Nat
  ok : Bool
deriving DecidableEq

/-- connect (lines 135-150) on the path where the TCP connection opens:
the connect target is the literal ("localhost", 8000) of line 140
whatever the instance attributes hold, the magic token is written, a
single recv(14) is made and the call returns whether the received bytes
equal the token. -/
def connect (hostname : String) (port : Nat) (stream : List (List Nat)) :
    ConnectResult :=
  { target := ("localhost", 8000)
    sent := magic_token
    ok := (recvChunk 14 stream).1 == magic_token }

/-! ## Transport lemmas -/

theorem buildPacket_eq (cmd : String) (cs ci : Nat) (data : Option (List Nat))
    (count : Nat) (hcmd : cmd_map.lookup cmd = some (cs, ci))
    (hlen : 11 + (data.getD []).length < 2 ^ 31) (hcount : count < 2 ^ 31)
    (hcs : cs < 256) (hci : ci < 256) :
    buildPacket cmd data count =
      .ok (u32BE (11 + (data.getD []).length) ++ u32BE count ++
        [0, cs, ci] ++ data.getD []) := by
  have hph : packHeader (11 + (data.getD []).length) count 0 cs ci =
      some (u32BE (11 + (data.getD []).length) ++ u32BE count ++ [0, cs, ci]) := by
    rw [packHeader, if_pos]
    exact ⟨hlen, hcount, by omega, hcs, hci⟩
  simp only [buildPacket, hcmd, hph]

/-- Whatever the response stream holds, a send_command call that gets past
packet building appends exactly that packet to the wire and writes
nothing else. -/
theorem send_command_sent (cmd : String) (data : Option (List Nat))
    (fuel : Nat) (st : Session) (packet : List Nat)
    (hb : buildPacket cmd data st.command_count = .ok packet) :
    (send_command cmd data fuel st).2.sent = st.sent ++ packet := by
  simp only [send_command, hb]
  cases hu : unpackHeader (recvChunk 11 st.stream).1 with
  | none => rfl
  | some v =>
    obtain ⟨rlen, rid, fl, rcs, rci⟩ := v
    cases hr : readBody fuel (rlen - 11) [] (recvChunk 11 st.stream).2 with
    | none => simp [hr]
    | some r => simp [hr]

/-! ## Claim theorems: transport -/

/-- C1: for every command name present in the command table and every
optional payload, send_command writes exactly one packet: the 11-byte
big-endian header — length = 11 + payload length (11 with no payload),
the current request id, flags 0, the resolved command-set and command
bytes — followed immediately by the payload bytes, and nothing else. -/
theorem claim_C1 (cmd : String) (cs ci : Nat) (data : Option (List Nat))
    (fuel : Nat) (st : Session)
    (hcmd : cmd_map.lookup cmd = some (cs, ci))
    (hlen : 11 + (data.getD []).length < 2 ^ 31)
    (hcount : st.command_count < 2 ^ 31) (hcs : cs < 256) (hci : ci < 256) :
    (send_command cmd data fuel st).2.sent =
      st.sent ++ u32BE (11 + (data.getD []).length) ++
        u32BE st.command_count ++ [0, cs, ci] ++ data.getD [] := by
  rw [send_command_sent cmd data fuel st _
    (buildPacket_eq cmd cs ci data st.command_count hcmd hlen hcount hcs hci)]
  simp [List.append_assoc]

/-- C1 witness: sending "Version" with payload [1, 2] from a fresh session
writes the 13-byte packet: header with length 13, id 0, flags 0,
command set 1, command 1, followed by the payload. -/
theorem claim_C1_witness :
    cmd_map.lookup "Version" = some (1, 1) ∧
    (send_command "Version" (some [1, 2]) 1 ⟨0, [], []⟩).2.sent =
      [] ++ u32BE 13 ++ u32BE 0 ++ [0, 1, 1] ++ [1, 2] :=
  ⟨rfl, claim_C1 "Version" 1 1 (some [1, 2]) 1 ⟨0, [], []⟩ rfl (by norm_num)
    (by norm_num) (by norm_num) (by norm_num)⟩

/-- C5: a command name absent from the command table makes send_command
fail with the lookup error before anything happens: the session — in
particular the bytes written to the wire — is unchanged. -/
theorem claim_C5 (cmd : String) (data : Option (List Nat)) (fuel : Nat)
    (st : Session) (h : cmd_map.lookup cmd = none) :
    send_command cmd data fuel st = (.err .unknownCommand, st) := by
  simp only [send_command, buildPacket, h]

/-- C5 witness: "NotACommand" is absent from the table and sending it
leaves the session untouched, zero bytes on the wire. -/
theorem claim_C5_witness :
    cmd_map.lookup "NotACommand" = none ∧
    send_command "NotACommand" none 1 ⟨0, [], []⟩ =
      (.err .unknownCommand, ⟨0, [], []⟩) :=
  ⟨rfl, claim_C5 "NotACommand" none 1 ⟨0, [], []⟩ rfl⟩

/-- C9: whatever hostname and port the instance attributes hold, connect
opens its TCP connection to the fixed address ("localhost", 8000). -/
theorem claim_C9 (hostname : String) (port : Nat) (stream : List (List Nat)) :
    (connect hostname port stream).target = ("localhost", 8000) := rfl

/-- C4 as amended: connect writes exactly the fixed 14-byte ASCII magic
token, and reports success iff its single recv of up to 14 bytes returns
exactly that token; an echo whose first delivered chunk differs from the
token — including the identical 14 bytes arriving split into smaller
chunks — is reported as failure. -/
theorem claim_C4 (hostname : String) (port : Nat) (stream : List (List Nat)) :
    (connect hostname port stream).sent = magic_token ∧
    magic_token.length = 14 ∧ (∀ b ∈ magic_token, b < 128) ∧
    ((connect hostname port stream).ok = true ↔
      (recvChunk 14 stream).1 = magic_token) := by
  refine ⟨rfl, rfl, by decide, ?_⟩
  simp [connect]

/-- C4 counterexample: the peer echoes exactly the identical 14 magic
bytes, but delivered as a 7-byte chunk followed by a 7-byte chunk; the
single recv(14) returns only the first 7 bytes and connect reports
failure, so success is not equivalent to the peer echoing the token. -/
theorem claim_C4_counterexample :
    List.flatten [[74, 68, 87, 80, 45, 72, 97], [110, 100, 115, 104, 97, 107, 101]] =
      magic_token ∧
    (connect "localhost" 8000
      [[74, 68, 87, 80, 45, 72, 97], [110, 100, 115, 104, 97, 107, 101]]).ok =
      false := by
  constructor <;> rfl

/-- C3: failing input for the claim. The peer answers with a complete
11-byte header declaring length 14 and then closes the connection before
the 3 body bytes arrive; recv thereafter returns the empty byte string,
and the body-read loop of send_command never terminates — whatever
iteration bound is allowed, it has not finished — instead of failing with
a transport error as the claim states. (The source defines no
TransportError at all.) -/
theorem claim_C3 (fuel : Nat) :
    (send_command "Version" none fuel
      ⟨0, [[0, 0, 0, 14, 0, 0, 0, 0, 0, 1, 1]], []⟩).1 = Outcome.hang := by
  have key : send_command "Version" none fuel
      ⟨0, [[0, 0, 0, 14, 0, 0, 0, 0, 0, 1, 1]], []⟩ =
      (match readBody fuel ((14 : Int) - 11) [] [] with
       | none => (Outcome.hang, ⟨1, [], [0, 0, 0, 11, 0, 0, 0, 0, 0, 1, 1]⟩)
       | some r =>
         (Outcome.ok r.1, ⟨1, r.2, [0, 0, 0, 11, 0, 0, 0, 0, 0, 1, 1]⟩)) := rfl
  rw [key]
  have hrb : readBody fuel ((14 : Int) - 11) [] [] = none := by
    have h3 : ((14 : Int) - 11) = 3 := by norm_num
    rw [h3]
    exact readBody_closed fuel 3 [] (by norm_num)
  rw [hrb]

/-- C6: failing input for the claim. The peer delivers the 11-byte
response header split into a 6-byte chunk and a 5-byte chunk; the header
read is a single recv(11), which returns only the first 6 bytes, and
struct.unpack raises on the short buffer — the header-unpack step does
operate on fewer than 11 bytes. The second conjunct exhibits the short
read itself. -/
theorem claim_C6 :
    (∀ fuel : Nat,
      send_command "Version" none fuel
        ⟨0, [[0, 0, 0, 14, 0, 0], [0, 0, 0, 1, 1]], []⟩ =
        (Outcome.err JdwpError.structError,
          ⟨0, [[0, 0, 0, 1, 1]], [0, 0, 0, 11, 0, 0, 0, 0, 0, 1, 1]⟩)) ∧
    (recvChunk 11 [[0, 0, 0, 14, 0, 0], [0, 0, 0, 1, 1]]).1.length = 6 :=
  ⟨fun _ => rfl, rfl⟩

/-- C2: a response declaring total length 11 + N whose N-byte body
arrives split into arbitrary nonempty chunks — in particular 1-byte
chunks — is reassembled by send_command's body-read loop into exactly the
N body bytes, returned unmodified and without any header bytes. -/
theorem claim_C2 (cmd : String) (cs ci : Nat) (data : Option (List Nat))
    (st : Session) (body : List Nat) (bodyChunks : List (List Nat))
    (rid fl rcs rci : Nat) (fuel : Nat)
    (hcmd : cmd_map.lookup cmd = some (cs, ci))
    (hlen : 11 + (data.getD []).length < 2 ^ 31)
    (hcount : st.command_count < 2 ^ 31) (hcs : cs < 256) (hci : ci < 256)
    (hstream : st.stream =
      (u32BE (11 + body.length) ++ u32BE rid ++ [fl, rcs, rci]) :: bodyChunks)
    (hL : 11 + body.length < 2 ^ 31)
    (hne : ∀ c ∈ bodyChunks, c ≠ [])
    (hfl : bodyChunks.flatten = body)
    (hfuel : bodyChunks.length < fuel) :
    (send_command cmd data fuel st).1 = Outcome.ok body := by
  have hb := buildPacket_eq cmd cs ci data st.command_count hcmd hlen hcount hcs hci
  have hlen11 : (u32BE (11 + body.length) ++ u32BE rid ++ [fl, rcs, rci]).length = 11 := by
    simp [u32BE_length]
  have hrecv : recvChunk 11 st.stream =
      (u32BE (11 + body.length) ++ u32BE rid ++ [fl, rcs, rci], bodyChunks) := by
    rw [hstream]
    exact recvChunk_all 11 _ bodyChunks (le_of_eq hlen11)
  have htake : (u32BE (11 + body.length) ++ u32BE rid ++ [fl, rcs, rci]).take 4 =
      u32BE (11 + body.length) := by
    have h4 : (4 : Nat) = (u32BE (11 + body.length)).length := (u32BE_length _).symm
    rw [List.append_assoc, h4, List.take_left]
  have hbt : beToNat (u32BE (11 + body.length)) = 11 + body.length :=
    beToNat_u32BE _ (by omega)
  have hi32 : i32un (u32BE (11 + body.length)) = ((11 + body.length : Nat) : Int) := by
    simp only [i32un, hbt, if_pos hL]
  have hup : unpackHeader (u32BE (11 + body.length) ++ u32BE rid ++ [fl, rcs, rci]) =
      some (((11 + body.length : Nat) : Int),
        i32un (((u32BE (11 + body.length) ++ u32BE rid ++ [fl, rcs, rci]).drop 4).take 4),
        ((u32BE (11 + body.length) ++ u32BE rid ++ [fl, rcs, rci]).drop 8).headD 0,
        ((u32BE (11 + body.length) ++ u32BE rid ++ [fl, rcs, rci]).drop 9).headD 0,
        ((u32BE (11 + body.length) ++ u32BE rid ++ [fl, rcs, rci]).drop 10).headD 0) := by
    rw [unpackHeader, if_pos hlen11, htake, hi32]
  have hdrain := readBody_drain bodyChunks [] fuel hne hfuel
  rw [hfl] at hdrain
  simp only [List.length_nil, List.nil_append, Nat.zero_add] at hdrain
  have hneed : (((11 + body.length : Nat) : Int)) - 11 = ((body.length : Nat) : Int) := by
    push_cast
    ring
  simp only [send_command, hb, hrecv, hup, hneed, hdrain]

/-- C2 witness: a response of declared length 14 whose 3-byte body [5, 6, 7]
arrives in 1-byte chunks is returned whole. -/
theorem claim_C2_witness :
    ([[0, 0, 0, 14, 0, 0, 0, 0, 0, 1, 1], [5], [6], [7]] : List (List Nat)) =
      (u32BE (11 + ([5, 6, 7] : List Nat).length) ++ u32BE 0 ++ [0, 1, 1]) :: [[5], [6], [7]] ∧
    (send_command "Version" none 4
      ⟨0, [[0, 0, 0, 14, 0, 0, 0, 0, 0, 1, 1], [5], [6], [7]], []⟩).1 =
      Outcome.ok [5, 6, 7] :=
  ⟨rfl, claim_C2 "Version" 1 1 none ⟨0, [[0, 0, 0, 14, 0, 0, 0, 0, 0, 1, 1], [5], [6], [7]], []⟩
    [5, 6, 7] [[5], [6], [7]] 0 0 1 1 4 rfl (by norm_num) (by norm_num) (by norm_num)
    (by norm_num) rfl (by norm_num) (by decide) rfl (by norm_num)⟩

/-! ## Request ids across successive calls (claim C7) -/

/-- Inversion of a successful packet build: the packet has the header
layout with the given count as id field. -/
theorem buildPacket_ok_shape (cmd : String) (data : Option (List Nat))
    (count : Nat) (packet : List Nat)
    (h : buildPacket cmd data count = .ok packet) :
    ∃ cs ci, packet =
      u32BE (11 + (data.getD []).length) ++ u32BE count ++ [0, cs, ci] ++
        data.getD [] := by
  unfold buildPacket at h
  cases hl : cmd_map.lookup cmd with
  | none => simp [hl] at h
  | some p =>
    obtain ⟨cs, ci⟩ := p
    simp only [hl] at h
    cases hph : packHeader (11 + (data.getD []).length) count 0 cs ci with
    | none => simp [hph] at h
    | some hdr =>
      simp only [hph] at h
      rw [packHeader] at hph
      split at hph
      · refine ⟨cs, ci, ?_⟩
        cases hph
        simp at h
        exact h.symm
      · cases hph

/-- Equation: send_command when the packet build fails. -/
theorem send_command_eq_builderr (cmd : String) (data : Option (List Nat))
    (fuel : Nat) (st : Session) (e : JdwpError)
    (hbp : buildPacket cmd data st.command_count = .error e) :
    send_command cmd data fuel st = (.err e, st) := by
  simp only [send_command, hbp]

/-- Equation: send_command when the single recv(11) yields a buffer
struct.unpack rejects. -/
theorem send_command_eq_headerr (cmd : String) (data : Option (List Nat))
    (fuel : Nat) (st : Session) (packet : List Nat)
    (hbp : buildPacket cmd data st.command_count = .ok packet)
    (hu : unpackHeader (recvChunk 11 st.stream).1 = none) :
    send_command cmd data fuel st =
      (.err .structError,
        ⟨st.command_count, (recvChunk 11 st.stream).2, st.sent ++ packet⟩) := by
  simp only [send_command, hbp, hu]

/-- Equation: send_command when the body-read loop does not finish. -/
theorem send_command_eq_hang (cmd : String) (data : Option (List Nat))
    (fuel : Nat) (st : Session) (packet : List Nat)
    (rlen rid : Int) (fl rcs rci : Nat)
    (hbp : buildPacket cmd data st.command_count = .ok packet)
    (hu : unpackHeader (recvChunk 11 st.stream).1 = some (rlen, rid, fl, rcs, rci))
    (hr : readBody fuel (rlen - 11) [] (recvChunk 11 st.stream).2 = none) :
    send_command cmd data fuel st =
      (.hang,
        ⟨st.command_count + 1, (recvChunk 11 st.stream).2, st.sent ++ packet⟩) := by
  simp only [send_command, hbp, hu, hr]

/-- Equation: send_command on the fully successful path. -/
theorem send_command_eq_ok (cmd : String) (data : Option (List Nat))
    (fuel : Nat) (st : Session) (packet : List Nat)
    (rlen rid : Int) (fl rcs rci : Nat) (r : List Nat × List (List Nat))
    (hbp : buildPacket cmd data st.command_count = .ok packet)
    (hu : unpackHeader (recvChunk 11 st.stream).1 = some (rlen, rid, fl, rcs, rci))
    (hr : readBody fuel (rlen - 11) [] (recvChunk 11 st.stream).2 = some r) :
    send_command cmd data fuel st =
      (.ok r.1, ⟨st.command_count + 1, r.2, st.sent ++ packet⟩) := by
  simp only [send_command, hbp, hu, hr]

/-- The id field (bytes 4 to 7) of a packet with the header layout. -/
theorem idField_of_packet (len count cs ci : Nat) (payload : List Nat) :
    ((u32BE len ++ u32BE count ++ [0, cs, ci] ++ payload).drop 4).take 4 =
      u32BE count := by
  simp only [List.append_assoc]
  rw [List.drop_left' (u32BE_length len), List.take_left' (u32BE_length count)]

/-- A send_command call that returns a body increments the local counter
by exactly one and stamps the old counter value into the id field of the
packet it wrote. -/
theorem send_command_ok_inv (cmd : String) (data : Option (List Nat))
    (fuel : Nat) (st : Session) (body : List Nat)
    (h : (send_command cmd data fuel st).1 = Outcome.ok body) :
    (send_command cmd data fuel st).2.command_count = st.command_count + 1 ∧
    (((send_command cmd data fuel st).2.sent.drop st.sent.length).drop 4).take 4 =
      u32BE st.command_count := by
  cases hbp : buildPacket cmd data st.command_count with
  | error e =>
    rw [send_command_eq_builderr cmd data fuel st e hbp] at h
    simp at h
  | ok packet =>
    obtain ⟨cs, ci, hpk⟩ := buildPacket_ok_shape cmd data st.command_count packet hbp
    cases hu : unpackHeader (recvChunk 11 st.stream).1 with
    | none =>
      rw [send_command_eq_headerr cmd data fuel st packet hbp hu] at h
      simp at h
    | some v =>
      obtain ⟨rlen, rid2, fl2, rcs2, rci2⟩ := v
      cases hr : readBody fuel (rlen - 11) [] (recvChunk 11 st.stream).2 with
      | none =>
        rw [send_command_eq_hang cmd data fuel st packet rlen rid2 fl2 rcs2 rci2
          hbp hu hr] at h
        simp at h
      | some r =>
        rw [send_command_eq_ok cmd data fuel st packet rlen rid2 fl2 rcs2 rci2 r
          hbp hu hr]
        refine ⟨rfl, ?_⟩
        rw [List.drop_left, hpk]
        exact idField_of_packet _ _ _ _ _

/-- One logical send_command call of a session trace: the command name,
its optional payload, the reply chunks the peer delivers for it, and the
loop bound. -/
structure Call where
  name : String
  data : Option (List Nat)
  reply : List (List Nat)
  fuel : Nat

/-- Run one call on the session with that call's reply stream installed. -/
def stepCall (c : Call) (st : Session) : Outcome × Session :=
  send_command c.name c.data c.fuel { st with stream := c.reply }

/-- Run successive send_command calls on one session, recording each
call's outcome together with the bytes that call appended to the wire. -/
def runCalls : List Call → Session → List (Outcome × List Nat) × Session
  | [], st => ([], st)
  | c :: cs, st =>
    let r := stepCall c st
    let rest := runCalls cs r.2
    ((r.1, r.2.sent.drop st.sent.length) :: rest.1, rest.2)

theorem runCalls_ids (calls : List Call) (st : Session)
    (h : ∀ p ∈ (runCalls calls st).1, p.1.isOk = true) :
    ∀ k, k < calls.length →
      (((runCalls calls st).1.getD k (Outcome.hang, [])).2.drop 4).take 4 =
        u32BE (st.command_count + k) := by
  induction calls generalizing st with
  | nil =>
    intro k hk
    simp at hk
  | cons c cs ih =>
    intro k hk
    have hrun : (runCalls (c :: cs) st).1 =
        ((stepCall c st).1, (stepCall c st).2.sent.drop st.sent.length) ::
          (runCalls cs (stepCall c st).2).1 := rfl
    have hheadok : (stepCall c st).1.isOk = true := by
      have := h ((stepCall c st).1, (stepCall c st).2.sent.drop st.sent.length)
        (by rw [hrun]; exact List.mem_cons_self _ _)
      exact this
    obtain ⟨body, hok⟩ : ∃ b, (stepCall c st).1 = Outcome.ok b := by
      cases ho : (stepCall c st).1 with
      | ok b => exact ⟨b, rfl⟩
      | err e => rw [ho] at hheadok; cases hheadok
      | hang => rw [ho] at hheadok; cases hheadok
    have hok' : (send_command c.name c.data c.fuel
        { st with stream := c.reply }).1 = Outcome.ok body := hok
    have hinv := send_command_ok_inv c.name c.data c.fuel
      { st with stream := c.reply } body hok'
    cases k with
    | zero =>
      rw [hrun]
      simpa using hinv.2
    | succ k =>
      rw [hrun, List.getD_cons_succ]
      have htail : ∀ p ∈ (runCalls cs (stepCall c st).2).1, p.1.isOk = true := by
        intro p hp
        exact h p (by rw [hrun]; exact List.mem_cons_of_mem _ hp)
      have hcount : (stepCall c st).2.command_count = st.command_count + 1 := by
        simpa using hinv.1
      have := ih (stepCall c st).2 htail k (by simpa using hk)
      rw [hcount] at this
      rw [this]
      congr 1
      omega

/-- C7: starting from a fresh session (counter 0, nothing sent), any run
of successive send_command calls that all return bodies stamps ids
0, 1, 2, … into the packets it writes: the k-th packet's id field is
exactly k, whatever ids the peer's replies carry. -/
theorem claim_C7 (calls : List Call) (s0 : List (List Nat))
    (h : ∀ p ∈ (runCalls calls ⟨0, s0, []⟩).1, p.1.isOk = true) :
    ∀ k, k < calls.length →
      (((runCalls calls ⟨0, s0, []⟩).1.getD k (Outcome.hang, [])).2.drop 4).take 4 =
        u32BE k := by
  have := runCalls_ids calls ⟨0, s0, []⟩ h
  simpa using this

/-- C7 witness: two successful calls; the second reply carries id 99, yet
the second request is stamped with id 1 = 0 + 1. -/
theorem claim_C7_witness :
    (∀ p ∈ (runCalls
      [⟨"Version", none, [[0, 0, 0, 11, 0, 0, 0, 0, 0, 1, 1]], 1⟩,
       ⟨"Suspend", none, [[0, 0, 0, 11, 0, 0, 0, 99, 0, 1, 8]], 1⟩]
      ⟨0, [], []⟩).1, p.1.isOk = true) ∧
    (((runCalls
      [⟨"Version", none, [[0, 0, 0, 11, 0, 0, 0, 0, 0, 1, 1]], 1⟩,
       ⟨"Suspend", none, [[0, 0, 0, 11, 0, 0, 0, 99, 0, 1, 8]], 1⟩]
      ⟨0, [], []⟩).1.getD 1 (Outcome.hang, [])).2.drop 4).take 4 = u32BE 1 :=
  ⟨by decide,
    claim_C7
      [⟨"Version", none, [[0, 0, 0, 11, 0, 0, 0, 0, 0, 1, 1]], 1⟩,
       ⟨"Suspend", none, [[0, 0, 0, 11, 0, 0, 0, 99, 0, 1, 8]], 1⟩]
      [] (by decide) 1 (by norm_num)⟩

/-! ## The value codec (claim C8) -/

/-- Field kinds the codec packs. Modelled from the spec: the repository's
`parser` module, imported by src/pyjdwp.py, is not part of the source
snapshot; per the spec the codec packs big-endian integers of fixed
width, a single byte for booleans and 4-byte-count-prefixed strings, and
no other kinds. -/
inductive FieldKind
  | fByte
  | fInt16
  | fInt32
  | fBool
  | fString
deriving DecidableEq

/-- A decoded or to-be-encoded field value; string values carry their
UTF-8 bytes. -/
inductive FieldValue
  | vInt (n : Nat)
  | vBool (b : Bool)
  | vStr (bs : List Nat)
deriving DecidableEq

inductive CodecErr
  | malformed
deriving DecidableEq

/-- Modelled from the spec: `pack(value, kind)` produces big-endian bytes
for integers of fixed width, a single byte for booleans (zero = false,
nonzero = true), and a 4-byte count followed by the UTF-8 bytes for
strings; `none` models the error on an out-of-range value or a
value/kind mismatch. -/
def pack : FieldValue → FieldKind → Option (List Nat)
  | .vInt n, .fByte => if n < 256 then some (beBytes 1 n) else none
  | .vInt n, .fInt16 => if n < 2 ^ 16 then some (beBytes 2 n) else none
  | .vInt n, .fInt32 => if n < 2 ^ 32 then some (beBytes 4 n) else none
  | .vBool b, .fBool => some [if b then 1 else 0]
  | .vStr s, .fString =>
      if s.length < 2 ^ 32 then some (u32BE s.length ++ s) else none
  | _, _ => none

/-- Modelled from the spec: decode one field of the given kind from the
front of the buffer, returning the value and the bytes consumed; a
declared count exceeding the remaining buffer is a MalformedPacketError. -/
def unpack1 (bs : List Nat) : FieldKind → Except CodecErr (FieldValue × Nat)
  | .fByte =>
      if 1 ≤ bs.length then .ok (.vInt (beToNat (bs.take 1)), 1)
      else .error .malformed
  | .fInt16 =>
      if 2 ≤ bs.length then .ok (.vInt (beToNat (bs.take 2)), 2)
      else .error .malformed
  | .fInt32 =>
      if 4 ≤ bs.length then .ok (.vInt (beToNat (bs.take 4)), 4)
      else .error .malformed
  | .fBool =>
      match bs with
      | [] => .error .malformed
      | b :: _ => .ok (.vBool (b != 0), 1)
  | .fString =>
      if h4 : 4 ≤ bs.length then
        let n := beToNat (bs.take 4)
        if 4 + n ≤ bs.length then .ok (.vStr ((bs.drop 4).take n), 4 + n)
        else .error .malformed
      else .error .malformed

/-- Modelled from the spec: `unpack` walks the format descriptor left to
right, consuming each field's bytes and returning the decoded values with
the total number of bytes consumed. -/
def unpack (bs : List Nat) : List FieldKind → Except CodecErr (List FieldValue × Nat)
  | [] => .ok ([], 0)
  | k :: ks =>
    match unpack1 bs k with
    | .error e => .error e
    | .ok (v, c) =>
      match unpack (bs.drop c) ks with
      | .error e => .error e
      | .ok (vs, c2) => .ok (v :: vs, c + c2)

/-- C8: for every supported field kind and every value the codec packs,
unpacking the packed bytes against the one-kind descriptor returns
exactly that value, with bytes_consumed equal to the whole encoded
length. -/
theorem claim_C8 (v : FieldValue) (k : FieldKind) (bs : List Nat)
    (h : pack v k = some bs) :
    unpack bs [k] = .ok ([v], bs.length) := by
  cases k with
  | fByte =>
    cases v with
    | vInt n =>
      rw [pack] at h
      split at h
      · cases h
        have hlen : (beBytes 1 n).length = 1 := beBytes_length 1 n
        have hbt : beToNat ((beBytes 1 n).take 1) = n := by
          rw [List.take_of_length_le (le_of_eq hlen), beToNat_beBytes 1 n (by omega)]
        simp [unpack, unpack1, hlen, hbt, List.drop_of_length_le (le_of_eq hlen)]
      · cases h
    | vBool b => cases h
    | vStr s => cases h
  | fInt16 =>
    cases v with
    | vInt n =>
      rw [pack] at h
      split at h
      · cases h
        have hlen : (beBytes 2 n).length = 2 := beBytes_length 2 n
        have hbt : beToNat ((beBytes 2 n).take 2) = n := by
          rw [List.take_of_length_le (le_of_eq hlen),
            beToNat_beBytes 2 n (by norm_num at *; omega)]
        simp [unpack, unpack1, hlen, hbt, List.drop_of_length_le (le_of_eq hlen)]
      · cases h
    | vBool b => cases h
    | vStr s => cases h
  | fInt32 =>
    cases v with
    | vInt n =>
      rw [pack] at h
      split at h
      · cases h
        have hlen : (beBytes 4 n).length = 4 := beBytes_length 4 n
        have hbt : beToNat ((beBytes 4 n).take 4) = n := by
          rw [List.take_of_length_le (le_of_eq hlen),
            beToNat_beBytes 4 n (by norm_num at *; omega)]
        simp [unpack, unpack1, hlen, hbt, List.drop_of_length_le (le_of_eq hlen)]
      · cases h
    | vBool b => cases h
    | vStr s => cases h
  | fBool =>
    cases v with
    | vInt n => cases h
    | vBool b =>
      rw [pack] at h
      cases h
      cases b <;> simp [unpack, unpack1]
    | vStr s => cases h
  | fString =>
    cases v with
    | vInt n => cases h
    | vBool b => cases h
    | vStr s =>
      rw [pack] at h
      split at h
      · cases h
        rename_i hs
        have h4 : (u32BE s.length).length = 4 := u32BE_length _
        have hlen : (u32BE s.length ++ s).length = 4 + s.length := by
          simp [h4]
        have htake : (u32BE s.length ++ s).take 4 = u32BE s.length := by
          rw [show (4 : Nat) = (u32BE s.length).length from h4.symm, List.take_left]
        have hdropn : (u32BE s.length ++ s).drop 4 = s := by
          rw [show (4 : Nat) = (u32BE s.length).length from h4.symm, List.drop_left]
        have hbt : beToNat ((u32BE s.length ++ s).take 4) = s.length := by
          rw [htake, beToNat_u32BE _ hs]
        rw [unpack, unpack1]
        rw [dif_pos (by omega)]
        simp only [hbt, hlen]
        rw [if_pos (by omega)]
        simp [hdropn, unpack]
      · cases h

/-- C8 witness: the two-byte string [76, 97] round-trips through the
string kind with six bytes consumed. -/
theorem claim_C8_witness :
    pack (FieldValue.vStr [76, 97]) FieldKind.fString = some [0, 0, 0, 2, 76, 97] ∧
    unpack [0, 0, 0, 2, 76, 97] [FieldKind.fString] =
      .ok ([FieldValue.vStr [76, 97]], 6) :=
  ⟨by decide, claim_C8 (FieldValue.vStr [76, 97]) FieldKind.fString
    [0, 0, 0, 2, 76, 97] (by decide)⟩

/-! ## get_classes (src/pyjdwp.py lines 217-237, claim C10) -/

/-- The tuple `jni_types` (line 43) as code points:
"[", "L", "Z", "B", "C", "S", "I", "J", "F", "D". -/
def jni_types : List Nat := [91, 76, 90, 66, 67, 83, 73, 74, 70, 68]

/-- Lines 229-230: while sig and sig[0] in jni_types: sig = sig[1:]. -/
def stripJniHead : List Nat → List Nat
  | [] => []
  | c :: rest => if c ∈ jni_types then stripJniHead rest else c :: rest

/-- Lines 231-232: while sig and sig[-1] in (";",): sig = sig[:-1]. -/
def stripSemiTail (s : List Nat) : List Nat :=
  (s.reverse.dropWhile (fun c => c == 59)).reverse

/-- Line 233: sig.split("$")[0], the prefix before the first "$" (36). -/
def beforeDollar (s : List Nat) : List Nat := s.takeWhile (fun c => !(c == 36))

/-- Line 234: sig.replace("/", "."), 47 mapped to 46. -/
def slashToDot (s : List Nat) : List Nat :=
  s.map (fun c => if c == 47 then 46 else c)

/-- The per-signature normalisation of lines 229-235, in source order. -/
def processSig (s : List Nat) : List Nat :=
  slashToDot (beforeDollar (stripSemiTail (stripJniHead s)))

/-- Python's string comparison on code-point lists: lexicographic, with a
proper prefix ordered before its extensions. -/
def lexLeB : List Nat → List Nat → Bool
  | [], _ => true
  | _ :: _, [] => false
  | a :: as, b :: bs => if a < b then true else if b < a then false else lexLeB as bs

def lexLe (x y : List Nat) : Prop := lexLeB x y = true

instance : DecidableRel lexLe :=
  fun x y => inferInstanceAs (Decidable (lexLeB x y = true))

theorem lexLeB_total (a : List Nat) : ∀ b, lexLeB a b = true ∨ lexLeB b a = true := by
  induction a with
  | nil => intro b; left; rfl
  | cons x xs ih =>
    intro b
    cases b with
    | nil => right; rfl
    | cons y ys =>
      rcases Nat.lt_trichotomy x y with hxy | hxy | hxy
      · left; simp [lexLeB, hxy]
      · subst hxy
        have := ih ys
        rcases this with h | h
        · left; simp [lexLeB, h]
        · right; simp [lexLeB, h]
      · right; simp [lexLeB, hxy]

theorem lexLeB_trans (a : List Nat) :
    ∀ b c, lexLeB a b = true → lexLeB b c = true → lexLeB a c = true := by
  induction a with
  | nil => intro b c _ _; rfl
  | cons x xs ih =>
    intro b c h1 h2
    cases b with
    | nil => simp [lexLeB] at h1
    | cons y ys =>
      cases c with
      | nil => simp [lexLeB] at h2
      | cons z zs =>
        simp only [lexLeB] at h1 h2 ⊢
        by_cases hxy : x < y
        · by_cases hyz : y < z
          · rw [if_pos (by omega)]
          · rw [if_neg hyz] at h2
            by_cases hzy : z < y
            · rw [if_pos hzy] at h2; cases h2
            · rw [if_pos (by omega)]
        · rw [if_neg hxy] at h1
          by_cases hyx : y < x
          · rw [if_pos hyx] at h1; cases h1
          · rw [if_neg hyx] at h1
            by_cases hyz : y < z
            · rw [if_pos (by omega)]
            · rw [if_neg hyz] at h2
              by_cases hzy : z < y
              · rw [if_pos hzy] at h2; cases h2
              · rw [if_neg hzy] at h2
                rw [if_neg (by omega), if_neg (by omega)]
                exact ih ys zs h1 h2

instance : IsTotal (List Nat) lexLe := ⟨fun a b => lexLeB_total a b⟩

instance : IsTrans (List Nat) lexLe := ⟨fun a b c => lexLeB_trans a b c⟩

/-- Line 237: sorted(list(set(classes))) — the distinct normalised names
in ascending lexicographic order. The decoding of each "brsi" record is
done by the external parser module (absent from the snapshot), so the
function takes the already-decoded signature strings. -/
def get_classes (sigs : List (List Nat)) : List (List Nat) :=
  List.insertionSort lexLe (sigs.map processSig).dedup

theorem stripJniHead_head (s : List Nat) :
    ∀ c, (stripJniHead s).head? = some c → c ∉ jni_types := by
  induction s with
  | nil => intro c hc; cases hc
  | cons a t ih =>
    intro c hc
    rw [stripJniHead] at hc
    by_cases ha : a ∈ jni_types
    · rw [if_pos ha] at hc
      exact ih c hc
    · rw [if_neg ha] at hc
      cases hc
      exact ha

theorem dropWhile_isSuffix (p : Nat → Bool) (l : List Nat) : l.dropWhile p <:+ l := by
  induction l with
  | nil => exact List.suffix_refl _
  | cons a t ih =>
    rw [List.dropWhile_cons]
    by_cases hp : p a = true
    · rw [if_pos hp]
      exact ih.trans (List.suffix_cons a t)
    · rw [if_neg hp]

theorem stripSemiTail_prefix_self (s : List Nat) : stripSemiTail s <+: s := by
  have hsuf : s.reverse.dropWhile (fun c => c == 59) <:+ s.reverse :=
    dropWhile_isSuffix _ _
  have h2 : (s.reverse.dropWhile (fun c => c == 59)).reverse <+: s.reverse.reverse := by
    exact List.reverse_prefix.mpr hsuf
  rw [List.reverse_reverse] at h2
  exact h2

theorem head_eq_of_prefixes {l₁ l₂ : List Nat} (h : l₁ <+: l₂) {c : Nat}
    (hc : l₁.head? = some c) : l₂.head? = some c := by
  obtain ⟨t, rfl⟩ := h
  cases l₁ with
  | nil => cases hc
  | cons a t2 =>
    cases hc
    rfl

theorem beforeDollar_head (s : List Nat) {c : Nat}
    (hc : (beforeDollar s).head? = some c) : s.head? = some c := by
  cases s with
  | nil => cases hc
  | cons a t =>
    rw [beforeDollar, List.takeWhile_cons] at hc
    by_cases ha : (!(a == 36)) = true
    · rw [if_pos ha] at hc
      cases hc
      rfl
    · rw [if_neg ha] at hc
      cases hc

theorem slashToDot_head (s : List Nat) {c : Nat}
    (hc : (slashToDot s).head? = some c) :
    ∃ d, s.head? = some d ∧ c = (if d == 47 then 46 else d) := by
  cases s with
  | nil => cases hc
  | cons a t =>
    refine ⟨a, rfl, ?_⟩
    rw [slashToDot, List.map_cons] at hc
    cases hc
    rfl

theorem processSig_head (s : List Nat) :
    ∀ c, (processSig s).head? = some c → c ∉ jni_types := by
  intro c hc
  rw [processSig] at hc
  obtain ⟨d, hd, hcd⟩ := slashToDot_head _ hc
  have hd2 : (stripSemiTail (stripJniHead s)).head? = some d := beforeDollar_head _ hd
  have hd3 : (stripJniHead s).head? = some d :=
    head_eq_of_prefixes (stripSemiTail_prefix_self _) hd2
  have hd4 : d ∉ jni_types := stripJniHead_head s d hd3
  subst hcd
  by_cases h47 : d = 47
  · subst h47
    decide
  · simpa [h47] using hd4

theorem beforeDollar_no_dollar (s : List Nat) : 36 ∉ beforeDollar s := by
  induction s with
  | nil => intro hx; simp [beforeDollar] at hx
  | cons a t ih =>
    intro hx
    rw [beforeDollar, List.takeWhile_cons] at hx
    by_cases ha : a = 36
    · simp [ha] at hx
    · simp [ha] at hx
      rcases hx with h | h
      · exact ha h.symm
      · exact ih h

theorem slashToDot_no_slash (s : List Nat) : 47 ∉ slashToDot s := by
  intro hx
  rw [slashToDot] at hx
  obtain ⟨c, hc, hfc⟩ := List.mem_map.mp hx
  by_cases h47 : c = 47
  · rw [h47] at hfc
    simp at hfc
  · simp [h47] at hfc

/-- C10 as amended: get_classes returns the distinct normalised names in
ascending order, each with all leading JNI type markers stripped,
everything from the first "$" onward removed and every "/" replaced by
".". Trailing ";" characters, however, are stripped before the "$" split,
so an element may retain a ";" that immediately preceded the first "$" of
its signature. -/
theorem claim_C10 (sigs : List (List Nat)) :
    (get_classes sigs).Sorted lexLe ∧ (get_classes sigs).Nodup ∧
    ∀ x ∈ get_classes sigs,
      (∃ s ∈ sigs, x = processSig s) ∧
      (∀ c, x.head? = some c → c ∉ jni_types) ∧ 36 ∉ x ∧ 47 ∉ x := by
  refine ⟨List.sorted_insertionSort lexLe _, ?_, ?_⟩
  · have hperm := List.perm_insertionSort lexLe (sigs.map processSig).dedup
    exact hperm.symm.nodup (List.nodup_dedup _)
  · intro x hx
    have hx2 : x ∈ (sigs.map processSig).dedup :=
      (List.perm_insertionSort lexLe _).mem_iff.mp hx
    have hx3 : x ∈ sigs.map processSig := List.mem_dedup.mp hx2
    obtain ⟨s, hs, rfl⟩ := List.mem_map.mp hx3
    refine ⟨⟨s, hs, rfl⟩, processSig_head s, ?_, ?_⟩
    · intro h36
      rw [processSig, slashToDot] at h36
      obtain ⟨c, hc, hfc⟩ := List.mem_map.mp h36
      have hcne : c ≠ 36 := by
        intro hceq
        subst hceq
        exact beforeDollar_no_dollar _ hc
      by_cases h47 : c = 47
      · rw [h47] at hfc
        simp at hfc
      · simp [h47] at hfc
        exact hcne hfc
    · rw [processSig]
      exact slashToDot_no_slash _

/-- C10 counterexample: the signature "Lab;$c" (bytes 76 97 98 59 36 99)
decodes to the single class name "ab;" — the trailing ";" survives
because the ";"-strip runs before the "$" split — so not every element of
the result is free of a trailing ";". -/
theorem claim_C10_counterexample :
    get_classes [[76, 97, 98, 59, 36, 99]] = [[97, 98, 59]] ∧
    ([97, 98, 59] : List Nat).getLast? = some 59 := by
  constructor
  · rfl
  · rfl

end Pyjdwp
